import Mathlib

/-!
Verification development for the CSV Manager CLI (`src/app.py`).

The program keeps a single dataset in a CSV file (header row = schema,
one row per record) and offers add / update / delete / backup /
export / import operations over it.  This file gives a shallow
embedding of the data layer and the operation flows, and proves or
refutes the behavioural properties stated in the specification.

Modelling conventions:
* a CSV file's content is a list of rows (`List Row`), a row being the
  list of its cell strings; the `csv` library's line encoding
  (quoting/escaping) is abstracted away, since it round-trips each row;
* a record (`csv.DictReader` / `DictWriter` dict) is an ordered
  association list `List (String × String)`;
* the filesystem state `FS` holds the dataset file, the temporary file
  created by `write_all`, and the backups directory;
* Python exceptions that the code catches become reported messages
  (`Msg`); exceptions that escape every `except` clause become the
  `POut.crash` constructor, which `runActions` (the interactive loop)
  propagates;
* I/O faults are injected explicitly (`WriteFail`, `CopyFail`, boolean
  fault flags) at the points where the real code can fail;
* the embedding is exact on dataset files whose rows fit within the
  schema width (`wfDataset`); a wider row would put `csv.DictReader`'s
  `None` rest-key into the record and crash any whole-file rewrite (see
  `parseRow`), a path outside the modelled domain.
-/

/-- One line of the CSV file, as the list of its cell values. -/
abbrev Row := List String

/-- An ordered field-name/value mapping, as produced by `csv.DictReader`
and consumed by `csv.DictWriter` (`dict[str, str]` in the source). -/
abbrev Rec := List (String × String)

/-- Console messages the program prints on error paths
(`console.print("[red]...")` in the source). -/
inductive Msg where
  | headerMismatch
  | readError
  | writeError
  | appendError
  | lockFailed
  | backupFailed
  | exportError
  | invalidJson
  | idNotFound
  | invalidInput
  deriving DecidableEq, Repr

/-- Filesystem state visible to the program: the dataset file
(`~/Documents/CSVManager/data.csv`), the temporary file of `write_all`,
and the backup directory (file name together with file content).
`none` means the file does not exist. -/
structure FS where
  dataset : Option (List Row)
  tmp : Option (List Row)
  backups : List (String × List Row)
  deriving DecidableEq, Repr

/-- Outcome of running a piece of Python code: either a normal return,
or an exception that no `except` clause caught, together with the
filesystem state at the moment it escaped. -/
inductive POut (α : Type) where
  | ok (a : α)
  | crash (exn : String) (a : α)
  deriving DecidableEq, Repr

/-- Failure injected into `write_all`.  `mkstemp` puts the temporary
file into the system-wide default temporary directory (the call passes
no `dir=`), so `shutil.move` is an atomic `os.rename` only when that
directory lies on the same filesystem as the dataset; otherwise it
falls back to a copy followed by a delete.
* `duringWrite`: an `IOError`/`csv.Error` while writing the temp file;
* `renameFail`: `shutil.move` fails without having touched the target
  (atomic rename case);
* `copyFail k`: `shutil.move` degraded to a copy (typical for the
  cross-filesystem temp dir) and the copy failed after writing the
  first `k` rows over the target. -/
inductive WriteFail where
  | noFail
  | duringWrite
  | renameFail
  | copyFail (k : Nat)
  deriving DecidableEq, Repr

/-- Failure injected into `backup_csv`'s `shutil.copy`: either none, or
the copy stops after `k` rows, leaving a truncated destination file. -/
inductive CopyFail where
  | noFail
  | midCopy (k : Nat)
  deriving DecidableEq, Repr

/-- One element of a parsed JSON array: a flat string-valued object, or
any other JSON value (string, number, list, null ...), on which the
code's `r.get("id")` raises `AttributeError`. -/
inductive JsonElem where
  | obj (fields : Rec)
  | nonObj
  deriving DecidableEq, Repr

/-- The configured schema (`FIELDNAMES` in the source). -/
def FIELDNAMES : List String := [("id"), ("nama kapal"), ("bendera"), ("agen"), ("gt"), ("muatan"), ("tujuan")]

/-- The literal `"id"` key. -/
def idKey : String := ("id")

/-- Placeholder recorded for a skipped import element without an `id`
field (`r.get("id", "(no id)")`). -/
def noIdTag : String := ("(no id)")

/-- The empty string. -/
def emptyStr : String := ("")

/-- Python's `ValueError` exception name. -/
def valueError : String := ("ValueError")

/-- Python's `AttributeError` exception name. -/
def attributeError : String := ("AttributeError")

/-- Dictionary lookup `d.get(k)`: value of the first pair whose key is
`k`. -/
def getVal (r : Rec) (k : String) : Option String :=
  (r.find? (fun kv => kv.1 == k)).map Prod.snd

/-- Value of the `id` field, `""` when absent (`None` and `""` are both
falsy, and compare unequal to every actual id, so `""` is an adequate
stand-in for a missing value in the flows below). -/
def idOf (r : Rec) : String :=
  (getVal r idKey).getD emptyStr

/-- Python's `str.isdigit` restricted to ASCII content: the string is
non-empty and all characters are decimal digits.  (Non-ASCII digit
characters are outside the model.) -/
def pyIsdigit (s : String) : Bool :=
  !s.isEmpty && s.all (fun c => c.isDigit)

/-- Python's `int(...)` on a string of decimal digits. -/
def digitsToNat (s : String) : Nat :=
  s.foldl (fun n c => n * 10 + (c.toNat - 48)) 0

/-- True when the record has a key outside the schema, in which case
`csv.DictWriter.writerow` raises `ValueError` (with the default
`extrasaction="raise"`). -/
def hasExtraKey (fl : List String) (r : Rec) : Bool :=
  r.any (fun kv => !(fl.contains kv.1))

/-- The CSV row `DictWriter` writes for a record: the record's values
in schema order; a key the record lacks is written as the empty cell
(restval). -/
def rowOf (fl : List String) (r : Rec) : Row :=
  fl.map (fun f => (getVal r f).getD emptyStr)

/-- The full file content `write_all` produces: header row then one row
per record, in order. -/
def csvContent (fl : List String) (records : List Rec) : List Row :=
  fl :: records.map (rowOf fl)

/-- The record `DictReader` builds from a data row: fields zipped with
cells; a short row is padded with empty cells (`restval` is `None` in
Python — the empty string is an adequate stand-in, since every flow
treats the two alike).  A row wider than the schema is truncated here,
whereas `DictReader` keeps its surplus cells under the `None` rest-key,
so that rewriting the record with `DictWriter` raises an uncaught
`ValueError` and crashes the process.  The embedding is therefore
exact only on datasets whose rows fit the schema width (`wfDataset`,
the spec's dataset data model); the error-containment theorem for the
interactive loop carries that hypothesis, and wider rows are outside
the modelled domain. -/
def parseRow (fl : List String) (row : Row) : Rec :=
  fl.zip (row ++ List.replicate (fl.length - row.length) emptyStr)

/-- `CsvRepository.read_all`: empty result when the file is absent;
empty result plus a reported mismatch when the header row is not
exactly the schema; otherwise every data row (blank lines skipped by
`DictReader`) parsed into a record.  (An `IOError` while reading would
likewise be caught and yield `[]`; it is not fault-injected here.) -/
def read_all (fl : List String) (fs : FS) : List Rec × List Msg :=
  match fs.dataset with
  | none => ([], [])
  | some [] => ([], [Msg.headerMismatch])
  | some (header :: body) =>
    if header = fl then
      ((body.filter (fun row => !row.isEmpty)).map (parseRow fl), [])
    else
      ([], [Msg.headerMismatch])

/-- `CsvRepository.write_all`: create a temp file with `mkstemp` (in
the system default temp dir), lock it best-effort (`lockFail` injects a
failed `flock`, which is only reported), write header and rows, then
`shutil.move` it onto the dataset path.  `IOError`/`OSError`/
`csv.Error` are caught: the handler reports the error and removes the
temp file.  A record with a key outside the schema makes `DictWriter`
raise `ValueError`, which the `except` clause does not list, so it
escapes (and the temp file leaks). -/
def write_all (fl : List String) (lockFail : Bool) (fail : WriteFail)
    (fs : FS) (records : List Rec) : POut (FS × List Msg) :=
  let lockMsgs := if lockFail then [Msg.lockFailed] else []
  if records.any (hasExtraKey fl) then
    POut.crash valueError
      ({ fs with tmp := some (csvContent fl (records.takeWhile (fun r => !hasExtraKey fl r))) }, lockMsgs)
  else
    match fail with
    | WriteFail.noFail =>
      POut.ok ({ fs with dataset := some (csvContent fl records), tmp := none }, lockMsgs)
    | WriteFail.duringWrite =>
      POut.ok ({ fs with tmp := none }, lockMsgs ++ [Msg.writeError])
    | WriteFail.renameFail =>
      POut.ok ({ fs with tmp := none }, lockMsgs ++ [Msg.writeError])
    | WriteFail.copyFail k =>
      POut.ok ({ fs with dataset := some ((csvContent fl records).take k), tmp := none },
               lockMsgs ++ [Msg.writeError])

/-- `CsvRepository.append`: open the dataset in append mode (creating
it if absent), lock best-effort, write one row.  `afail` injects a
caught `IOError` (reported, no change).  A record with a key outside
the schema raises `ValueError` before anything is written, and the
`except (IOError, csv.Error)` clause does not catch it. -/
def appendRec (fl : List String) (lockFail afail : Bool) (fs : FS) (r : Rec) :
    POut (FS × List Msg) :=
  let lockMsgs := if lockFail then [Msg.lockFailed] else []
  if afail then
    POut.ok (fs, [Msg.appendError])
  else if hasExtraKey fl r then
    POut.crash valueError (fs, lockMsgs)
  else
    POut.ok ({ fs with dataset := some (fs.dataset.getD [] ++ [rowOf fl r]) }, lockMsgs)

/-- Id computation of `add_record_flow`:
`[int(r["id"]) for r in recs if r["id"].isdigit()]`, then
`str(max(existing_ids, default=0) + 1)`. -/
def next_id (recs : List Rec) : String :=
  let ids := (recs.filter (fun r => pyIsdigit (idOf r))).map (fun r => digitsToNat (idOf r))
  Nat.repr (ids.foldl Nat.max 0 + 1)

/-- `add_record_flow`: read all records, compute the next id, prompt
for the other fields (`fields = none` models failed input validation,
after which nothing is appended), and append `{"id": next_id, **fields}`. -/
def add_record_flow (fl : List String) (lockFail afail : Bool) (fs : FS)
    (fields : Option Rec) : POut (FS × List Msg) :=
  let recs := (read_all fl fs).1
  match fields with
  | none => POut.ok (fs, [Msg.invalidInput])
  | some fr => appendRec fl lockFail afail fs ((idKey, next_id recs) :: fr)

/-- Python's `record[field] = new_value` on an ordered dict: replace
the value of an existing key in place, or append the key at the end
when absent. -/
def setField (r : Rec) (f v : String) : Rec :=
  if r.any (fun kv => kv.1 == f) then
    r.map (fun kv => if kv.1 == f then (kv.1, v) else kv)
  else
    r ++ [(f, v)]

/-- `update_record`: read all records, locate the first record with the
given id (report and stop when there is none), set the chosen field on
it, and rewrite the whole dataset with `write_all`. -/
def update_record (fl : List String) (lockFail : Bool) (wfail : WriteFail)
    (fs : FS) (rid f v : String) : POut (FS × List Msg) :=
  let recs := (read_all fl fs).1
  match recs.findIdx? (fun r => idOf r == rid) with
  | none => POut.ok (fs, [Msg.idNotFound])
  | some i => write_all fl lockFail wfail fs (recs.set i (setField (recs[i]?.getD []) f v))

/-- `delete_record`: when confirmed, rewrite the dataset with every
record whose id equals the given one removed. -/
def delete_record (fl : List String) (lockFail : Bool) (wfail : WriteFail)
    (fs : FS) (rid : String) (confirmed : Bool) : POut (FS × List Msg) :=
  if confirmed then
    let recs := (read_all fl fs).1
    write_all fl lockFail wfail fs (recs.filter (fun r => !(idOf r == rid)))
  else
    POut.ok (fs, [])

/-- Name of a backup file: `data_backup_<timestamp>.csv`. -/
def backupName (ts : String) : String :=
  ("data_backup_") ++ ts ++ (".csv")

/-- `backup_csv`: `shutil.copy(CSV_FILE, dest)`.  A missing source
raises `FileNotFoundError` (an `OSError`), which is caught and
reported.  A copy that fails midway (`CopyFail.midCopy k`) is also
caught and reported, but the truncated destination file stays in the
backup directory: the code removes nothing on failure. -/
def backup_csv (fs : FS) (ts : String) (fail : CopyFail) : FS × List Msg :=
  match fs.dataset with
  | none => (fs, [Msg.backupFailed])
  | some rows =>
    match fail with
    | CopyFail.noFail =>
      ({ fs with backups := fs.backups ++ [(backupName ts, rows)] }, [])
    | CopyFail.midCopy k =>
      ({ fs with backups := fs.backups ++ [(backupName ts, rows.take k)] }, [Msg.backupFailed])

/-- `export_to_json`: serializes `read_all()` to a user-chosen JSON
file outside the dataset, so it never touches `FS.dataset`; only its
caught-and-reported `IOError`/`OSError` is modelled. -/
def export_to_json (fs : FS) (efail : Bool) : FS × List Msg :=
  (fs, if efail then [Msg.exportError] else [])

/-- The import condition of `import_from_json`:
`r.get("id") and not any(x["id"] == r["id"] for x in orig)` — the
element's id is non-empty (and present) and no record of the pre-import
snapshot `orig` carries the same id. -/
def importKeep (orig : List Rec) (r : Rec) : Bool :=
  !(idOf r == emptyStr) && !(orig.any (fun x => idOf x == idOf r))

/-- The skip entry for a rejected element: `r.get("id", "(no id)")`. -/
def skipTag (r : Rec) : String :=
  (getVal r idKey).getD noIdTag

/-- The `for r in recs:` loop body of `import_from_json`: keep-or-skip
each element against the pre-import snapshot, appending kept ones.  A
non-object element crashes with `AttributeError` at `r.get`; an object
with a key outside the schema crashes with `ValueError` inside
`append`.  Neither exception is caught by the function's `try`, which
only covers the JSON parse. -/
def importLoop (fl : List String) (orig : List Rec) :
    List JsonElem → FS → Nat → List String → POut (FS × Nat × List String)
  | [], fs, count, skipped => POut.ok (fs, count, skipped)
  | JsonElem.nonObj :: _, fs, count, skipped => POut.crash attributeError (fs, count, skipped)
  | JsonElem.obj r :: rest, fs, count, skipped =>
    if importKeep orig r then
      match appendRec fl false false fs r with
      | POut.ok (fs2, _) => importLoop fl orig rest fs2 (count + 1) skipped
      | POut.crash e (fs2, _) => POut.crash e (fs2, count, skipped)
    else
      importLoop fl orig rest fs count (skipped ++ [skipTag r])

/-- `import_from_json` on an already-read payload file: `none` models
content that is not valid JSON (`json.JSONDecodeError`, caught and
reported, nothing imported); `some elems` a payload parsed as a JSON
array.  Returns the new state, the imported count, the skip list, and
the error messages. -/
def import_from_json (fl : List String) (fs : FS) (payload : Option (List JsonElem)) :
    POut (FS × Nat × List String × List Msg) :=
  match payload with
  | none => POut.ok (fs, 0, [], [Msg.invalidJson])
  | some elems =>
    let orig := (read_all fl fs).1
    match importLoop fl orig elems fs 0 [] with
    | POut.ok (fs2, count, skipped) => POut.ok (fs2, count, skipped, [])
    | POut.crash e (fs2, count, skipped) => POut.crash e (fs2, count, skipped, [])

/-- `erase_all_data`: when confirmed, rewrite the dataset with an empty
record list (header only remains). -/
def erase_all_data (fl : List String) (lockFail : Bool) (wfail : WriteFail)
    (fs : FS) (confirmed : Bool) : POut (FS × List Msg) :=
  if confirmed then write_all fl lockFail wfail fs [] else POut.ok (fs, [])

/-- One menu selection of the interactive loop in `main`, together with
the user input and the injected faults of that iteration. -/
inductive MenuAction where
  | view
  | add (fields : Option Rec) (lockFail afail : Bool)
  | update (rid f v : String) (lockFail : Bool) (wfail : WriteFail)
  | delete (rid : String) (confirmed lockFail : Bool) (wfail : WriteFail)
  | backup (ts : String) (cfail : CopyFail)
  | exportJson (efail : Bool)
  | importJson (payload : Option (List JsonElem))
  | eraseAll (confirmed lockFail : Bool) (wfail : WriteFail)

/-- One iteration of the `while True:` menu loop in `main`.  `main` has
no exception handler of its own, so a `POut.crash` of a flow is a
`POut.crash` of the iteration. -/
def mainStep (fs : FS) : MenuAction → POut (FS × List Msg)
  | MenuAction.view => POut.ok (fs, [])
  | MenuAction.add fields lockFail afail => add_record_flow FIELDNAMES lockFail afail fs fields
  | MenuAction.update rid f v lockFail wfail => update_record FIELDNAMES lockFail wfail fs rid f v
  | MenuAction.delete rid confirmed lockFail wfail =>
    delete_record FIELDNAMES lockFail wfail fs rid confirmed
  | MenuAction.backup ts cfail => POut.ok (backup_csv fs ts cfail)
  | MenuAction.exportJson efail => POut.ok (export_to_json fs efail)
  | MenuAction.importJson payload =>
    match import_from_json FIELDNAMES fs payload with
    | POut.ok (fs2, _, _, msgs) => POut.ok (fs2, msgs)
    | POut.crash e (fs2, _, _, msgs) => POut.crash e (fs2, msgs)
  | MenuAction.eraseAll confirmed lockFail wfail =>
    erase_all_data FIELDNAMES lockFail wfail fs confirmed

/-- The interactive loop of `main`, run over a finite list of menu
selections: an uncaught exception of any iteration propagates out of
the loop and terminates the process. -/
def runActions (fs : FS) : List MenuAction → POut FS
  | [] => POut.ok fs
  | a :: rest =>
    match mainStep fs a with
    | POut.ok (fs2, _) => runActions fs2 rest
    | POut.crash e (fs2, _) => POut.crash e fs2

/-- Specification-side formulation of the id-assignment rule, following
the spec's words: keep the `id` values parseable as non-negative
integers, take the maximum (0 when none parse), add 1, format as a
decimal string.  To be compared with the code-side `next_id`. -/
def specNextId (recs : List Rec) : String :=
  Nat.repr ((recs.filterMap (fun r => (idOf r).toNat?)).foldr Nat.max 0 + 1)

/-- Specification-side import condition, following the spec's words:
the element has a non-empty `id` field whose value differs from the id
of every record in the pre-import snapshot.  To be compared with the
code-side `importKeep`. -/
def specNewId (orig : List Rec) (r : Rec) : Prop :=
  idOf r ≠ emptyStr ∧ ∀ x ∈ orig, idOf x ≠ idOf r

instance (orig : List Rec) (r : Rec) : Decidable (specNewId orig r) :=
  inferInstanceAs (Decidable (idOf r ≠ emptyStr ∧ ∀ x ∈ orig, idOf x ≠ idOf r))

/-- Sample record with id `"1"`. -/
def recA : Rec :=
  [(idKey, ("1")), (("nama kapal"), ("mahkota")), (("bendera"), ("ID")),
   (("agen"), ("agen satu")), (("gt"), ("1200")), (("muatan"), ("beras")), (("tujuan"), ("ambon"))]

/-- Sample record with id `"2"`. -/
def recB : Rec :=
  [(idKey, ("2")), (("nama kapal"), ("samudra")), (("bendera"), ("SG")),
   (("agen"), ("agen dua")), (("gt"), ("800")), (("muatan"), ("semen")), (("tujuan"), ("bitung"))]

/-- The CSV row of `recA`. -/
def rowA : Row := [("1"), ("mahkota"), ("ID"), ("agen satu"), ("1200"), ("beras"), ("ambon")]

/-- The CSV row of `recB`. -/
def rowB : Row := [("2"), ("samudra"), ("SG"), ("agen dua"), ("800"), ("semen"), ("bitung")]

/-- Sample filesystem: dataset holding the single record `recA`. -/
def fsA : FS := { dataset := some [FIELDNAMES, rowA], tmp := none, backups := [] }

/-- Sample filesystem: dataset holding `recA` then `recB` (ids `"1"`, `"2"`). -/
def fsAB : FS := { dataset := some [FIELDNAMES, rowA, rowB], tmp := none, backups := [] }

/-- A header row that differs from the schema. -/
def badHeader : Row := [("id"), ("name")]

/-- Sample filesystem whose dataset file carries a wrong header row. -/
def fsBadHeader : FS :=
  { dataset := some [badHeader, [("9"), ("x"), ("y")]], tmp := none, backups := [] }

/-- Sample user input for the non-id fields of a new record. -/
def frSample : Rec :=
  [(("nama kapal"), ("tidar")), (("bendera"), ("MY")), (("agen"), ("agen tiga")),
   (("gt"), ("500")), (("muatan"), ("kayu")), (("tujuan"), ("batam"))]

/-- An import element whose key `"bogus"` lies outside the schema. -/
def badKeyRec : Rec := [(idKey, ("9")), (("bogus"), ("z"))]

/-- The spec's import-dedup example payload: ids `"2"`, `"3"`, and an
object without an id field. -/
def importPayloadExample : List JsonElem :=
  [JsonElem.obj [(idKey, ("2"))], JsonElem.obj [(idKey, ("3"))], JsonElem.obj []]

/-- The records of `importPayloadExample`. -/
def rsExample : List Rec := [[(idKey, ("2"))], [(idKey, ("3"))], []]

/-- A JSON array element the import flow can process without raising an
uncaught exception: a flat object whose keys all lie in the schema. -/
def wfElem : JsonElem → Prop
  | JsonElem.obj r => ∀ kv ∈ r, kv.1 ∈ FIELDNAMES
  | JsonElem.nonObj => False

instance : DecidablePred wfElem := fun e =>
  match e with
  | JsonElem.obj r => inferInstanceAs (Decidable (∀ kv ∈ r, kv.1 ∈ FIELDNAMES))
  | JsonElem.nonObj => Decidable.isFalse (fun h => h)

/-- A menu action whose user input stays inside what the code's
`except` clauses can handle: new-record fields and updated fields lie
in the schema, and import payloads consist of flat objects with keys in
the schema.  All other inputs (including every injected I/O fault) are
unrestricted. -/
def wfMenuAction : MenuAction → Prop
  | MenuAction.add (some fr) _ _ => ∀ kv ∈ fr, kv.1 ∈ FIELDNAMES
  | MenuAction.update _ f _ _ _ => f ∈ FIELDNAMES
  | MenuAction.importJson (some elems) => ∀ e ∈ elems, wfElem e
  | _ => True

instance : DecidablePred wfMenuAction := fun a =>
  match a with
  | MenuAction.view => inferInstanceAs (Decidable True)
  | MenuAction.add none _ _ => inferInstanceAs (Decidable True)
  | MenuAction.add (some fr) _ _ => inferInstanceAs (Decidable (∀ kv ∈ fr, kv.1 ∈ FIELDNAMES))
  | MenuAction.update _ f _ _ _ => inferInstanceAs (Decidable (f ∈ FIELDNAMES))
  | MenuAction.delete _ _ _ _ => inferInstanceAs (Decidable True)
  | MenuAction.backup _ _ => inferInstanceAs (Decidable True)
  | MenuAction.exportJson _ => inferInstanceAs (Decidable True)
  | MenuAction.importJson none => inferInstanceAs (Decidable True)
  | MenuAction.importJson (some elems) => inferInstanceAs (Decidable (∀ e ∈ elems, wfElem e))
  | MenuAction.eraseAll _ _ _ => inferInstanceAs (Decidable True)

/-- A dataset file on which this embedding is exact: every row fits
within the schema width.  On a wider row `csv.DictReader` keeps the
surplus cells under the `None` rest-key, and rewriting such a record
with `csv.DictWriter` raises an uncaught `ValueError` — a crash path
this embedding does not represent (see `parseRow`).  The program only
ever writes rows of exactly the schema width, so this invariant holds
for every file it produces, matches the spec's dataset data model, and
is preserved by every operation. -/
def wfDataset (fl : List String) (fs : FS) : Prop :=
  ∀ row ∈ fs.dataset.getD [], row.length ≤ fl.length

instance (fl : List String) (fs : FS) : Decidable (wfDataset fl fs) :=
  inferInstanceAs (Decidable (∀ row ∈ fs.dataset.getD [], row.length ≤ fl.length))

/-! ## Helper lemmas: rows, records and the CSV round trip -/

theorem rowOf_length (fl : List String) (r : Rec) : (rowOf fl r).length = fl.length := by
  simp [rowOf]

theorem parseRow_keys (fl : List String) (row : Row) :
    (parseRow fl row).map Prod.fst = fl := by
  apply List.map_fst_zip
  simp only [List.length_append, List.length_replicate]
  omega

theorem read_all_conforms (fl : List String) (fs : FS) :
    ∀ r ∈ (read_all fl fs).1, r.map Prod.fst = fl := by
  intro r hr
  cases hds : fs.dataset with
  | none => simp [read_all, hds] at hr
  | some rows =>
    cases rows with
    | nil => simp [read_all, hds] at hr
    | cons header body =>
      by_cases h : header = fl
      · have heq : (read_all fl fs).1 =
            (body.filter (fun row => !row.isEmpty)).map (parseRow fl) := by
          simp [read_all, hds, h]
        rw [heq] at hr
        obtain ⟨row, _, hrow⟩ := List.mem_map.mp hr
        rw [← hrow]
        exact parseRow_keys fl row
      · simp [read_all, hds, h] at hr

theorem zip_append_of_le {α β : Type} (l1 : List α) (l2 l3 : List β)
    (h : l1.length ≤ l2.length) : l1.zip (l2 ++ l3) = l1.zip l2 := by
  induction l1 generalizing l2 with
  | nil => simp
  | cons a t ih =>
    cases l2 with
    | nil => simp at h
    | cons b t2 =>
      simp only [List.cons_append, List.zip_cons_cons]
      rw [ih t2 (by simpa using h)]

theorem parseRow_eq_zip (fl : List String) (row : Row) (h : fl.length ≤ row.length) :
    parseRow fl row = fl.zip row := by
  unfold parseRow
  exact zip_append_of_le fl row _ h

theorem getVal_cons_self (k v : String) (r : Rec) : getVal ((k, v) :: r) k = some v := by
  simp [getVal]

theorem getVal_cons_ne (k v f : String) (r : Rec) (h : k ≠ f) :
    getVal ((k, v) :: r) f = getVal r f := by
  simp [getVal, List.find?_cons_of_neg, h]

theorem parseRow_rowOf (r : Rec) (hnd : (r.map Prod.fst).Nodup) :
    parseRow (r.map Prod.fst) (rowOf (r.map Prod.fst) r) = r := by
  rw [parseRow_eq_zip _ _ (by rw [rowOf_length])]
  induction r with
  | nil => rfl
  | cons kv t ih =>
    obtain ⟨k, v⟩ := kv
    simp only [List.map_cons, List.nodup_cons] at hnd ⊢
    obtain ⟨hk_notin, hnd'⟩ := hnd
    have hrow : rowOf (k :: t.map Prod.fst) ((k, v) :: t) =
        v :: rowOf (t.map Prod.fst) t := by
      unfold rowOf
      simp only [List.map_cons, getVal_cons_self, Option.getD_some]
      congr 1
      apply List.map_congr_left
      intro f hf
      rw [getVal_cons_ne k v f t (fun hkf => hk_notin (hkf ▸ hf))]
    rw [hrow, List.zip_cons_cons, ih hnd']

theorem conforming_roundtrip (fl : List String) (r : Rec)
    (hk : r.map Prod.fst = fl) (hnd : fl.Nodup) :
    parseRow fl (rowOf fl r) = r := by
  subst hk
  exact parseRow_rowOf r hnd

/-! ## Helper lemmas: write and read back -/

theorem hasExtraKey_eq_false (fl : List String) (r : Rec)
    (h : ∀ kv ∈ r, kv.1 ∈ fl) : hasExtraKey fl r = false := by
  simp only [hasExtraKey, List.any_eq_false, Bool.not_eq_true']
  intro kv hkv
  simpa using h kv hkv

theorem conforms_no_extra (fl : List String) (r : Rec)
    (hk : r.map Prod.fst = fl) : hasExtraKey fl r = false :=
  hasExtraKey_eq_false fl r (fun _kv hkv => hk ▸ List.mem_map_of_mem Prod.fst hkv)

theorem write_all_noFail_eq (fl : List String) (lockFail : Bool) (fs : FS)
    (records : List Rec) (h : records.any (hasExtraKey fl) = false) :
    write_all fl lockFail WriteFail.noFail fs records =
      POut.ok ({ fs with dataset := some (csvContent fl records), tmp := none },
               if lockFail then [Msg.lockFailed] else []) := by
  simp [write_all, h]

theorem read_all_eq (fl : List String) (fs : FS) (body : List Row)
    (hds : fs.dataset = some (fl :: body)) :
    (read_all fl fs).1 = (body.filter (fun row => !row.isEmpty)).map (parseRow fl) := by
  simp [read_all, hds]

theorem read_all_csvContent (fl : List String) (fs : FS) (records : List Rec)
    (hds : fs.dataset = some (csvContent fl records))
    (hfl : fl ≠ []) (hnd : fl.Nodup)
    (hc : ∀ r ∈ records, r.map Prod.fst = fl) :
    (read_all fl fs).1 = records := by
  rw [read_all_eq fl fs (records.map (rowOf fl)) hds]
  have hbody : (records.map (rowOf fl)).filter (fun row => !row.isEmpty) =
      records.map (rowOf fl) := by
    rw [List.filter_eq_self]
    intro row hrow
    obtain ⟨r, _, hr⟩ := List.mem_map.mp hrow
    rw [← hr]
    have hlen : (rowOf fl r).length = fl.length := rowOf_length fl r
    simp only [Bool.not_eq_true', List.isEmpty_eq_false]
    intro heq
    rw [heq] at hlen
    exact hfl (List.eq_nil_of_length_eq_zero hlen.symm)
  rw [hbody, List.map_map]
  have hid : ∀ r ∈ records, (parseRow fl ∘ rowOf fl) r = id r :=
    fun r hr => conforming_roundtrip fl r (hc r hr) hnd
  rw [List.map_congr_left hid, List.map_id]

theorem read_after_write (fl : List String) (lockFail : Bool) (fs : FS)
    (records : List Rec) (hfl : fl ≠ []) (hnd : fl.Nodup)
    (hc : ∀ r ∈ records, r.map Prod.fst = fl) :
    ∃ fs2 msgs, write_all fl lockFail WriteFail.noFail fs records = POut.ok (fs2, msgs) ∧
      (read_all fl fs2).1 = records := by
  have hno : records.any (hasExtraKey fl) = false := by
    rw [List.any_eq_false]
    intro r hr
    simp [conforms_no_extra fl r (hc r hr)]
  exact ⟨_, _, write_all_noFail_eq fl lockFail fs records hno,
    read_all_csvContent fl _ records rfl hfl hnd hc⟩

/-! ## C1: write_all / read_all round trip -/

/-- C1: for every schema-conforming record list (including the empty
list), `write_all(records)` succeeds and a subsequent `read_all()`
returns a record sequence equal to the input — same fields, same
order, same values. -/
theorem write_read_round_trip (fs : FS) (lockFail : Bool) (records : List Rec)
    (hc : ∀ r ∈ records, r.map Prod.fst = FIELDNAMES) :
    ∃ fs2 msgs, write_all FIELDNAMES lockFail WriteFail.noFail fs records = POut.ok (fs2, msgs) ∧
      (read_all FIELDNAMES fs2).1 = records :=
  read_after_write FIELDNAMES lockFail fs records (by decide) (by decide) hc

/-- Witness for C1 at a concrete schema-conforming record list. -/
theorem write_read_round_trip_witness :
    (∀ r ∈ [recA, recB], r.map Prod.fst = FIELDNAMES) ∧
    (∃ fs2 msgs, write_all FIELDNAMES false WriteFail.noFail fsA [recA, recB] = POut.ok (fs2, msgs) ∧
      (read_all FIELDNAMES fs2).1 = [recA, recB]) :=
  ⟨by decide, write_read_round_trip fsA false [recA, recB] (by decide)⟩

/-! ## C5: header mismatch -/

/-- C5: a dataset file whose header row differs from the configured
schema makes `read_all` return the empty sequence and report a
schema mismatch, whatever the data rows contain. -/
theorem header_mismatch_reads_empty (fs : FS) (header : Row) (body : List Row)
    (h1 : fs.dataset = some (header :: body)) (h2 : header ≠ FIELDNAMES) :
    read_all FIELDNAMES fs = ([], [Msg.headerMismatch]) := by
  simp [read_all, h1, h2]

/-- Witness for C5 at a concrete mismatching dataset file. -/
theorem header_mismatch_reads_empty_witness :
    (fsBadHeader.dataset = some (badHeader :: [[("9"), ("x"), ("y")]])) ∧
    badHeader ≠ FIELDNAMES ∧
    read_all FIELDNAMES fsBadHeader = ([], [Msg.headerMismatch]) :=
  ⟨rfl, by decide,
    header_mismatch_reads_empty fsBadHeader badHeader [[("9"), ("x"), ("y")]] rfl (by decide)⟩

/-! ## C2: no atomicity through the copy fallback of shutil.move -/

/-- C2 (code bug, evaluated at the failing input): `mkstemp` without
`dir=` puts the temporary file into the system temp directory, so on
the common setup where that directory is a different filesystem than
`~/Documents`, `shutil.move` degrades to a non-atomic copy.  When that
copy fails after the header row, `write_all` reports the error and
removes the temp file, but the dataset file now differs from its
pre-call state — the docstring's "atomically overwrite" and the spec's
byte-identity guarantee are both violated. -/
theorem write_all_copy_fallback_corrupts :
    write_all FIELDNAMES false (WriteFail.copyFail 1) fsA [recB] =
      POut.ok ({ fsA with dataset := some [FIELDNAMES], tmp := none }, [Msg.writeError]) ∧
    some [FIELDNAMES] ≠ fsA.dataset ∧
    ({ fsA with dataset := some [FIELDNAMES], tmp := none } : FS).tmp = none := by
  refine ⟨by decide, by decide, rfl⟩

/-! ## C3: replacement mechanism of write_all -/

/-- C3 counterexample: a `write_all` whose `shutil.move` degraded to a
copy (the temp file is not created on the dataset's filesystem) can
leave a partially written dataset visible at the target path — content
that is neither the old nor the new dataset. -/
theorem write_all_partial_state_visible :
    (∃ fs2, write_all FIELDNAMES false (WriteFail.copyFail 2) fsA [recB, recA] =
        POut.ok (fs2, [Msg.writeError]) ∧
      fs2.dataset = some [FIELDNAMES, rowB] ∧
      fs2.dataset ≠ fsA.dataset ∧
      fs2.dataset ≠ some (csvContent FIELDNAMES [recB, recA])) :=
  ⟨{ fsA with dataset := some [FIELDNAMES, rowB], tmp := none }, by decide⟩

/-- C3 amended: `write_all` writes the rows to a locked temporary file
and moves it onto the target; whenever the move does not degrade to a
copy (i.e. it is an atomic rename, the same-filesystem case), the
target ends up holding either the untouched old dataset or the complete
new one — never a partial file — and no temporary file remains. -/
theorem write_all_rename_atomic (fs : FS) (lockFail : Bool) (records : List Rec)
    (fail : WriteFail)
    (hc : ∀ r ∈ records, r.map Prod.fst = FIELDNAMES)
    (hf : ∀ k, fail ≠ WriteFail.copyFail k) :
    ∃ fs2 msgs, write_all FIELDNAMES lockFail fail fs records = POut.ok (fs2, msgs) ∧
      (fs2.dataset = fs.dataset ∨ fs2.dataset = some (csvContent FIELDNAMES records)) ∧
      fs2.tmp = none := by
  have hno : records.any (hasExtraKey FIELDNAMES) = false := by
    rw [List.any_eq_false]
    intro r hr
    simp [conforms_no_extra FIELDNAMES r (hc r hr)]
  cases fail with
  | noFail =>
    exact ⟨_, _, write_all_noFail_eq FIELDNAMES lockFail fs records hno, Or.inr rfl, rfl⟩
  | duringWrite =>
    refine ⟨{ fs with tmp := none },
      (if lockFail then [Msg.lockFailed] else []) ++ [Msg.writeError], ?_, Or.inl rfl, rfl⟩
    simp [write_all, hno]
  | renameFail =>
    refine ⟨{ fs with tmp := none },
      (if lockFail then [Msg.lockFailed] else []) ++ [Msg.writeError], ?_, Or.inl rfl, rfl⟩
    simp [write_all, hno]
  | copyFail k => exact absurd rfl (hf k)

/-- Witness for the amended C3 at a concrete rename failure. -/
theorem write_all_rename_atomic_witness :
    (∀ r ∈ [recB], r.map Prod.fst = FIELDNAMES) ∧
    (∀ k, WriteFail.renameFail ≠ WriteFail.copyFail k) ∧
    (∃ fs2 msgs, write_all FIELDNAMES false WriteFail.renameFail fsA [recB] = POut.ok (fs2, msgs) ∧
      (fs2.dataset = fsA.dataset ∨ fs2.dataset = some (csvContent FIELDNAMES [recB])) ∧
      fs2.tmp = none) :=
  ⟨by decide, fun k => by simp,
    write_all_rename_atomic fsA false [recB] WriteFail.renameFail (by decide) (fun k => by simp)⟩

/-! ## C4: id assignment -/

theorem toNat?_eq (s : String) :
    s.toNat? = if pyIsdigit s then some (digitsToNat s) else none := rfl

theorem foldl_max_eq (l : List Nat) :
    ∀ a : Nat, l.foldl Nat.max a = Nat.max a (l.foldr Nat.max 0) := by
  induction l with
  | nil => intro a; simp
  | cons b t ih =>
    intro a
    simp only [List.foldl_cons, List.foldr_cons]
    rw [ih (Nat.max a b)]
    exact Nat.max_assoc a b (List.foldr Nat.max 0 t)

theorem foldl_max_zero (l : List Nat) : l.foldl Nat.max 0 = l.foldr Nat.max 0 := by
  rw [foldl_max_eq l 0]
  exact Nat.zero_max _

theorem ids_filterMap (recs : List Rec) :
    (recs.filter (fun r => pyIsdigit (idOf r))).map (fun r => digitsToNat (idOf r)) =
    recs.filterMap (fun r => (idOf r).toNat?) := by
  induction recs with
  | nil => rfl
  | cons r rs ih =>
    rw [List.filter_cons, List.filterMap_cons, toNat?_eq]
    cases h : pyIsdigit (idOf r) <;> simp [h, ih]

theorem next_id_eq_spec (recs : List Rec) : next_id recs = specNextId recs := by
  simp only [next_id, specNextId]
  rw [ids_filterMap, foldl_max_zero]

/-- C4: the id `add_record_flow` assigns to a newly added record is the
maximum of the existing ids that parse as non-negative integers (0 when
none parse) plus one, written as a decimal string; in particular ids
`{"1","3","x"}` yield `"4"`, and an empty record set yields `"1"`. -/
theorem id_assignment (fs : FS) (lockFail : Bool) (fr : Rec)
    (hk : ∀ kv ∈ fr, kv.1 ∈ FIELDNAMES) :
    (∃ fs2 msgs, add_record_flow FIELDNAMES lockFail false fs (some fr) = POut.ok (fs2, msgs) ∧
      fs2.dataset = some (fs.dataset.getD [] ++
        [rowOf FIELDNAMES ((idKey, specNextId ((read_all FIELDNAMES fs).1)) :: fr)])) ∧
    (∀ recs, next_id recs = specNextId recs) ∧
    next_id [[(idKey, ("1"))], [(idKey, ("3"))], [(idKey, ("x"))]] = ("4") ∧
    next_id [] = ("1") := by
  refine ⟨?_, next_id_eq_spec, ?_, ?_⟩
  case refine_2 =>
    simp only [next_id, pyIsdigit, digitsToNat, String.all_eq, String.foldl_eq]
    decide
  case refine_3 =>
    simp only [next_id]
    decide
  have hex : hasExtraKey FIELDNAMES ((idKey, next_id ((read_all FIELDNAMES fs).1)) :: fr) = false := by
    apply hasExtraKey_eq_false
    intro kv hkv
    rcases List.mem_cons.mp hkv with h | h
    · rw [h]
      show idKey ∈ FIELDNAMES
      decide
    · exact hk kv h
  refine ⟨{ fs with dataset := some (fs.dataset.getD [] ++
      [rowOf FIELDNAMES ((idKey, specNextId ((read_all FIELDNAMES fs).1)) :: fr)]) },
    if lockFail then [Msg.lockFailed] else [], ?_, rfl⟩
  rw [← next_id_eq_spec]
  simp [add_record_flow, appendRec, hex]

/-- Witness for C4 at a concrete dataset and input fields. -/
theorem id_assignment_witness :
    (∀ kv ∈ frSample, kv.1 ∈ FIELDNAMES) ∧
    ((∃ fs2 msgs, add_record_flow FIELDNAMES false false fsAB (some frSample) = POut.ok (fs2, msgs) ∧
      fs2.dataset = some (fsAB.dataset.getD [] ++
        [rowOf FIELDNAMES ((idKey, specNextId ((read_all FIELDNAMES fsAB).1)) :: frSample)])) ∧
     (∀ recs, next_id recs = specNextId recs) ∧
     next_id [[(idKey, ("1"))], [(idKey, ("3"))], [(idKey, ("x"))]] = ("4") ∧
     next_id [] = ("1")) :=
  ⟨by decide, id_assignment fsAB false frSample (by decide)⟩

/-! ## C8: delete removes exactly the chosen id -/

/-- C8: deleting an existing id (confirmed) removes exactly the record
carrying that id and leaves every other record, in original order. -/
theorem delete_removes_exactly (fs : FS) (lockFail : Bool) (rid : String)
    (pre post : List Rec) (x : Rec)
    (h1 : (read_all FIELDNAMES fs).1 = pre ++ x :: post)
    (h2 : idOf x = rid)
    (h3 : ∀ r ∈ pre ++ post, idOf r ≠ rid) :
    ∃ fs2 msgs, delete_record FIELDNAMES lockFail WriteFail.noFail fs rid true = POut.ok (fs2, msgs) ∧
      (read_all FIELDNAMES fs2).1 = pre ++ post := by
  have hconf : ∀ r ∈ pre ++ post, r.map Prod.fst = FIELDNAMES := by
    intro r hr
    apply read_all_conforms FIELDNAMES fs
    rw [h1]
    rcases List.mem_append.mp hr with h | h
    · exact List.mem_append.mpr (Or.inl h)
    · exact List.mem_append.mpr (Or.inr (List.mem_cons_of_mem x h))
  have hfilter : (pre ++ x :: post).filter (fun r => !(idOf r == rid)) = pre ++ post := by
    rw [List.filter_append, List.filter_cons]
    have hxb : (idOf x == rid) = true := beq_iff_eq.mpr h2
    have hpre : pre.filter (fun r => !(idOf r == rid)) = pre :=
      List.filter_eq_self.mpr (fun r hr => by
        simp [beq_eq_false_iff_ne.mpr (h3 r (List.mem_append.mpr (Or.inl hr)))])
    have hpost : post.filter (fun r => !(idOf r == rid)) = post :=
      List.filter_eq_self.mpr (fun r hr => by
        simp [beq_eq_false_iff_ne.mpr (h3 r (List.mem_append.mpr (Or.inr hr)))])
    rw [hpre, hpost]
    simp [hxb]
  have heq : delete_record FIELDNAMES lockFail WriteFail.noFail fs rid true =
      write_all FIELDNAMES lockFail WriteFail.noFail fs (pre ++ post) := by
    simp only [delete_record, if_true]
    rw [h1, hfilter]
  rw [heq]
  exact read_after_write FIELDNAMES lockFail fs (pre ++ post) (by decide) (by decide) hconf

/-- Witness for C8: deleting id `"2"` from the dataset `[recA, recB]`. -/
theorem delete_removes_exactly_witness :
    ((read_all FIELDNAMES fsAB).1 = [recA] ++ recB :: []) ∧
    idOf recB = ("2") ∧
    (∀ r ∈ [recA] ++ ([] : List Rec), idOf r ≠ ("2")) ∧
    (∃ fs2 msgs, delete_record FIELDNAMES false WriteFail.noFail fsAB ("2") true = POut.ok (fs2, msgs) ∧
      (read_all FIELDNAMES fs2).1 = [recA] ++ ([] : List Rec)) :=
  ⟨by decide, by decide, by decide,
    delete_removes_exactly fsAB false ("2") [recA] [] recB (by decide) (by decide) (by decide)⟩

/-! ## C10: update touches only the selected field -/

theorem findIdx?_middle (p : Rec → Bool) (pre post : List Rec) (x : Rec)
    (hpre : ∀ r ∈ pre, p r = false) (hx : p x = true) :
    ∀ i, List.findIdx? p (pre ++ x :: post) i = some (pre.length + i) := by
  induction pre with
  | nil =>
    intro i
    simp [List.findIdx?_cons, hx]
  | cons a t ih =>
    intro i
    rw [List.cons_append, List.findIdx?_cons, hpre a (List.mem_cons_self a t)]
    simp only [Bool.false_eq_true, if_false]
    rw [ih (fun r hr => hpre r (List.mem_cons_of_mem a hr)) (i + 1)]
    congr 1
    simp only [List.length_cons]
    omega

theorem set_middle (pre post : List Rec) (x y : Rec) :
    (pre ++ x :: post).set pre.length y = pre ++ y :: post := by
  induction pre with
  | nil => rfl
  | cons a t ih =>
    show a :: (t ++ x :: post).set t.length y = a :: (t ++ y :: post)
    rw [ih]

theorem getElem?_middle (pre post : List Rec) (x : Rec) :
    (pre ++ x :: post)[pre.length]? = some x := by
  induction pre with
  | nil => simp
  | cons a t ih => simpa using ih

theorem any_key_of_mem (r : Rec) (f : String) (h : f ∈ r.map Prod.fst) :
    r.any (fun kv => kv.1 == f) = true := by
  rw [List.any_eq_true]
  obtain ⟨kv, hkv, hfst⟩ := List.mem_map.mp h
  exact ⟨kv, hkv, by simp [hfst]⟩

theorem setField_keys_of_mem (r : Rec) (f v : String)
    (h : r.any (fun kv => kv.1 == f) = true) :
    (setField r f v).map Prod.fst = r.map Prod.fst := by
  simp only [setField, h, if_true]
  rw [List.map_map]
  apply List.map_congr_left
  intro kv _
  by_cases hk : kv.1 = f <;> simp [Function.comp, hk]

theorem map_set_head (k w f v : String) (t : Rec) :
    ((k, w) :: t).map (fun kv => if kv.1 == f then (kv.1, v) else kv) =
    (if k = f then (k, v) else (k, w)) :: t.map (fun kv => if kv.1 == f then (kv.1, v) else kv) := by
  simp only [List.map_cons]
  congr 1
  by_cases hk : k = f <;> simp [hk]

theorem getVal_map_set_self (r : Rec) (f v : String)
    (h : r.any (fun kv => kv.1 == f) = true) :
    getVal (r.map (fun kv => if kv.1 == f then (kv.1, v) else kv)) f = some v := by
  induction r with
  | nil => simp at h
  | cons kv t ih =>
    obtain ⟨k, w⟩ := kv
    rw [map_set_head]
    by_cases hk : k = f
    · rw [if_pos hk, hk]
      exact getVal_cons_self f v _
    · rw [if_neg hk, getVal_cons_ne k w f _ hk]
      apply ih
      rw [List.any_cons] at h
      have hkf : (((k, w)).1 == f) = false := by simp [hk]
      rw [hkf] at h
      simpa using h

theorem getVal_map_set_other (r : Rec) (f v g : String) (hg : g ≠ f) :
    getVal (r.map (fun kv => if kv.1 == f then (kv.1, v) else kv)) g = getVal r g := by
  induction r with
  | nil => rfl
  | cons kv t ih =>
    obtain ⟨k, w⟩ := kv
    rw [map_set_head]
    by_cases hk : k = f
    · have hkg : k ≠ g := fun hkg => hg (hkg ▸ hk)
      rw [if_pos hk, getVal_cons_ne k v g _ hkg, getVal_cons_ne k w g _ hkg]
      exact ih
    · rw [if_neg hk]
      by_cases hkg : k = g
      · subst hkg
        rw [getVal_cons_self, getVal_cons_self]
      · rw [getVal_cons_ne k w g _ hkg, getVal_cons_ne k w g _ hkg]
        exact ih

theorem getVal_append_self (r : Rec) (f v : String)
    (h : r.any (fun kv => kv.1 == f) = false) :
    getVal (r ++ [(f, v)]) f = some v := by
  induction r with
  | nil => simp [getVal]
  | cons kv t ih =>
    obtain ⟨k, w⟩ := kv
    rw [List.any_cons] at h
    rcases Bool.or_eq_false_iff.mp h with ⟨h1, h2⟩
    have hk : k ≠ f := by simpa using h1
    rw [List.cons_append, getVal_cons_ne k w f _ hk]
    exact ih h2

theorem getVal_append_ne (r : Rec) (f v g : String) (hg : g ≠ f) :
    getVal (r ++ [(f, v)]) g = getVal r g := by
  induction r with
  | nil =>
    have hf : f ≠ g := fun h => hg h.symm
    rw [List.nil_append, getVal_cons_ne f v g _ hf]
  | cons kv t ih =>
    obtain ⟨k, w⟩ := kv
    by_cases hkg : k = g
    · subst hkg
      rw [List.cons_append, getVal_cons_self, getVal_cons_self]
    · rw [List.cons_append, getVal_cons_ne k w g _ hkg, getVal_cons_ne k w g _ hkg]
      exact ih

theorem getVal_setField_self (r : Rec) (f v : String) :
    getVal (setField r f v) f = some v := by
  unfold setField
  by_cases h : r.any (fun kv => kv.1 == f) = true
  · rw [if_pos h]
    exact getVal_map_set_self r f v h
  · rw [if_neg h]
    exact getVal_append_self r f v (Bool.eq_false_iff.mpr h)

theorem getVal_setField_other (r : Rec) (f v g : String) (hg : g ≠ f) :
    getVal (setField r f v) g = getVal r g := by
  unfold setField
  by_cases h : r.any (fun kv => kv.1 == f) = true
  · rw [if_pos h]
    exact getVal_map_set_other r f v g hg
  · rw [if_neg h]
    exact getVal_append_ne r f v g hg

/-- C10: updating a field of an existing record rewrites the dataset so
that only the selected field of the selected record carries the new
value; every other record, every other field of that record, and the
order of all records are unchanged. -/
theorem update_modifies_only_selected_field (fs : FS) (lockFail : Bool) (rid f v : String)
    (pre post : List Rec) (x : Rec)
    (h1 : (read_all FIELDNAMES fs).1 = pre ++ x :: post)
    (h2 : idOf x = rid)
    (h3 : ∀ r ∈ pre, idOf r ≠ rid)
    (h4 : f ∈ FIELDNAMES) :
    ∃ fs2 msgs, update_record FIELDNAMES lockFail WriteFail.noFail fs rid f v = POut.ok (fs2, msgs) ∧
      (read_all FIELDNAMES fs2).1 = pre ++ setField x f v :: post ∧
      getVal (setField x f v) f = some v ∧
      (∀ g, g ≠ f → getVal (setField x f v) g = getVal x g) := by
  have hconfx : x.map Prod.fst = FIELDNAMES :=
    read_all_conforms FIELDNAMES fs x
      (by rw [h1]; exact List.mem_append.mpr (Or.inr (List.mem_cons_self x post)))
  have hconf : ∀ r ∈ pre ++ setField x f v :: post, r.map Prod.fst = FIELDNAMES := by
    intro r hr
    rcases List.mem_append.mp hr with h | h
    · exact read_all_conforms FIELDNAMES fs r
        (by rw [h1]; exact List.mem_append.mpr (Or.inl h))
    · rcases List.mem_cons.mp h with h | h
      · rw [h, setField_keys_of_mem x f v (any_key_of_mem x f (by rw [hconfx]; exact h4))]
        exact hconfx
      · exact read_all_conforms FIELDNAMES fs r
          (by rw [h1]; exact List.mem_append.mpr (Or.inr (List.mem_cons_of_mem x h)))
  have hidx : ((read_all FIELDNAMES fs).1).findIdx? (fun r => idOf r == rid) = some pre.length := by
    rw [h1]
    have := findIdx?_middle (fun r => idOf r == rid) pre post x
      (fun r hr => beq_eq_false_iff_ne.mpr (h3 r hr)) (beq_iff_eq.mpr h2) 0
    simpa using this
  have hget : ((read_all FIELDNAMES fs).1)[pre.length]? = some x := by
    rw [h1]
    exact getElem?_middle pre post x
  have hset : ((read_all FIELDNAMES fs).1).set pre.length
      (setField ((((read_all FIELDNAMES fs).1)[pre.length]?).getD []) f v) =
      pre ++ setField x f v :: post := by
    rw [hget]
    simp only [Option.getD_some]
    rw [h1, set_middle]
  have heq : update_record FIELDNAMES lockFail WriteFail.noFail fs rid f v =
      write_all FIELDNAMES lockFail WriteFail.noFail fs (pre ++ setField x f v :: post) := by
    unfold update_record
    simp only [hidx]
    rw [hset]
  obtain ⟨fs2, msgs, hw, hread⟩ :=
    read_after_write FIELDNAMES lockFail fs (pre ++ setField x f v :: post)
      (by decide) (by decide) hconf
  exact ⟨fs2, msgs, heq ▸ hw, hread, getVal_setField_self x f v,
    fun g hgf => getVal_setField_other x f v g hgf⟩

/-- Witness for C10: updating field `"muatan"` of the record with id
`"1"` in the dataset `[recA, recB]`. -/
theorem update_modifies_only_selected_field_witness :
    ((read_all FIELDNAMES fsAB).1 = [] ++ recA :: [recB]) ∧
    idOf recA = ("1") ∧
    (∀ r ∈ ([] : List Rec), idOf r ≠ ("1")) ∧
    (("muatan") ∈ FIELDNAMES) ∧
    (∃ fs2 msgs, update_record FIELDNAMES false WriteFail.noFail fsAB ("1") ("muatan") ("kopra") =
        POut.ok (fs2, msgs) ∧
      (read_all FIELDNAMES fs2).1 = [] ++ setField recA ("muatan") ("kopra") :: [recB] ∧
      getVal (setField recA ("muatan") ("kopra")) ("muatan") = some ("kopra") ∧
      (∀ g, g ≠ ("muatan") → getVal (setField recA ("muatan") ("kopra")) g = getVal recA g)) :=
  ⟨by decide, by decide, by decide, by decide,
    update_modifies_only_selected_field fsAB false ("1") ("muatan") ("kopra") [] [recB] recA
      (by decide) (by decide) (by decide) (by decide)⟩

/-! ## C6: import keeps exactly the fresh non-empty ids -/

theorem importKeep_iff (orig : List Rec) (r : Rec) :
    importKeep orig r = true ↔ (idOf r ≠ emptyStr ∧ ∀ x ∈ orig, idOf x ≠ idOf r) := by
  simp [importKeep, List.any_eq_true]

theorem importKeep_eq_decide (orig : List Rec) (r : Rec) :
    importKeep orig r = decide (specNewId orig r) := by
  by_cases h : specNewId orig r
  · rw [decide_eq_true h]
    exact (importKeep_iff orig r).mpr h
  · rw [decide_eq_false h]
    cases hb : importKeep orig r
    · rfl
    · exact absurd ((importKeep_iff orig r).mp hb) h

theorem appendRec_ok_eq (fl : List String) (fs : FS) (r : Rec)
    (hkr : hasExtraKey fl r = false) :
    appendRec fl false false fs r =
      POut.ok ({ fs with dataset := some (fs.dataset.getD [] ++ [rowOf fl r]) }, []) := by
  simp [appendRec, hkr]

theorem importLoop_spec (fl : List String) (orig : List Rec) (rs : List Rec)
    (hkeys : ∀ r ∈ rs, hasExtraKey fl r = false) :
    ∀ (fs : FS) (ds : List Row), fs.dataset = some ds → ∀ (count : Nat) (skipped : List String),
    importLoop fl orig (rs.map JsonElem.obj) fs count skipped =
      POut.ok ({ fs with dataset := some (ds ++ (rs.filter (importKeep orig)).map (rowOf fl)) },
               count + (rs.filter (importKeep orig)).length,
               skipped ++ (rs.filter (fun r => !importKeep orig r)).map skipTag) := by
  induction rs with
  | nil =>
    intro fs ds hds count skipped
    cases fs with
    | mk d t b =>
      simp at hds
      subst hds
      simp [importLoop]
  | cons r rest ih =>
    intro fs ds hds count skipped
    have hkr : hasExtraKey fl r = false := hkeys r (List.mem_cons_self r rest)
    have hkrest : ∀ x ∈ rest, hasExtraKey fl x = false :=
      fun x hx => hkeys x (List.mem_cons_of_mem r hx)
    by_cases hkeep : importKeep orig r = true
    · have happ : appendRec fl false false fs r =
          POut.ok ({ fs with dataset := some (ds ++ [rowOf fl r]) }, []) := by
        rw [appendRec_ok_eq fl fs r hkr, hds]
        rfl
      simp only [List.map_cons, importLoop, hkeep, if_true, happ]
      rw [ih hkrest _ (ds ++ [rowOf fl r]) rfl (count + 1) skipped]
      simp only [List.filter_cons, hkeep, Bool.not_true, Bool.false_eq_true, if_false, if_true]
      simp [List.append_assoc]
      omega
    · have hkeep' : importKeep orig r = false := Bool.eq_false_iff.mpr hkeep
      simp only [List.map_cons, importLoop, hkeep', Bool.false_eq_true, if_false]
      rw [ih hkrest fs ds hds count (skipped ++ [skipTag r])]
      simp only [List.filter_cons, hkeep', Bool.not_false, Bool.false_eq_true, if_false, if_true]
      simp [List.append_assoc]

/-- C6 counterexample: an import payload that parses as a JSON array
but contains a non-object element (here `["just a string"]`-style) is
not "skipped with a placeholder" as the claim states for elements
without an id field: `r.get("id")` raises `AttributeError`, which the
function's `try` (covering only the JSON parse) does not catch. -/
theorem import_non_object_element_crashes :
    import_from_json FIELDNAMES fsAB (some [JsonElem.nonObj]) =
      POut.crash attributeError (fsAB, 0, [], []) ∧
    (∀ out, import_from_json FIELDNAMES fsAB (some [JsonElem.nonObj]) ≠ POut.ok out) := by
  refine ⟨by decide, ?_⟩
  intro out h
  have h1 : import_from_json FIELDNAMES fsAB (some [JsonElem.nonObj]) =
      POut.crash attributeError (fsAB, 0, [], []) := by decide
  rw [h1] at h
  exact POut.noConfusion h

/-- C6 amended: for an import payload that is a JSON array of flat
objects whose keys lie in the schema, exactly the elements with a
non-empty `id` field not equal to any id of the pre-import snapshot are
appended to the dataset (in payload order) and counted, and every other
element is recorded as skipped under its id, or under the placeholder
when the id field is absent; in particular, for existing ids
`{"1","2"}` and payload `[{"id":"2"}, {"id":"3"}, {}]`, exactly the
`"3"` record is imported and the other two are skipped. -/
theorem import_appends_exactly_fresh_ids (fs : FS) (ds : List Row) (rs orig : List Rec)
    (hds : fs.dataset = some ds)
    (horig : orig = (read_all FIELDNAMES fs).1)
    (hkeys : ∀ r ∈ rs, ∀ kv ∈ r, kv.1 ∈ FIELDNAMES) :
    (∃ fs2, import_from_json FIELDNAMES fs (some (rs.map JsonElem.obj)) =
      POut.ok (fs2, (rs.filter (fun r => decide (specNewId orig r))).length,
               (rs.filter (fun r => !decide (specNewId orig r))).map skipTag, []) ∧
      fs2.dataset = some (ds ++ (rs.filter (fun r => decide (specNewId orig r))).map (rowOf FIELDNAMES))) ∧
    import_from_json FIELDNAMES fsAB (some importPayloadExample) =
      POut.ok ({ fsAB with dataset := some [FIELDNAMES, rowA, rowB,
        [("3"), emptyStr, emptyStr, emptyStr, emptyStr, emptyStr, emptyStr]] },
        1, [("2"), noIdTag], []) := by
  constructor
  · have hkeys' : ∀ r ∈ rs, hasExtraKey FIELDNAMES r = false :=
      fun r hr => hasExtraKey_eq_false _ _ (hkeys r hr)
    have hpos : rs.filter (importKeep orig) = rs.filter (fun r => decide (specNewId orig r)) :=
      List.filter_congr (fun r _ => importKeep_eq_decide orig r)
    have hneg : rs.filter (fun r => !importKeep orig r) =
        rs.filter (fun r => !decide (specNewId orig r)) :=
      List.filter_congr (fun r _ => by rw [importKeep_eq_decide orig r])
    refine ⟨{ fs with dataset := some (ds ++ (rs.filter (fun r => decide (specNewId orig r))).map (rowOf FIELDNAMES)) }, ?_, rfl⟩
    simp only [import_from_json]
    rw [← horig, importLoop_spec FIELDNAMES orig rs hkeys' fs ds hds 0 []]
    rw [hpos, hneg]
    simp
  · decide

/-- Witness for the amended C6 at the spec's own example. -/
theorem import_appends_exactly_fresh_ids_witness :
    (fsAB.dataset = some [FIELDNAMES, rowA, rowB]) ∧
    ([recA, recB] = (read_all FIELDNAMES fsAB).1) ∧
    (∀ r ∈ rsExample, ∀ kv ∈ r, kv.1 ∈ FIELDNAMES) ∧
    ((∃ fs2, import_from_json FIELDNAMES fsAB (some (rsExample.map JsonElem.obj)) =
        POut.ok (fs2, (rsExample.filter (fun r => decide (specNewId [recA, recB] r))).length,
                 (rsExample.filter (fun r => !decide (specNewId [recA, recB] r))).map skipTag, []) ∧
      fs2.dataset = some ([FIELDNAMES, rowA, rowB] ++
        (rsExample.filter (fun r => decide (specNewId [recA, recB] r))).map (rowOf FIELDNAMES))) ∧
     import_from_json FIELDNAMES fsAB (some importPayloadExample) =
      POut.ok ({ fsAB with dataset := some [FIELDNAMES, rowA, rowB,
        [("3"), emptyStr, emptyStr, emptyStr, emptyStr, emptyStr, emptyStr]] },
        1, [("2"), noIdTag], [])) :=
  ⟨rfl, by decide, by decide,
    import_appends_exactly_fresh_ids fsAB [FIELDNAMES, rowA, rowB] rsExample [recA, recB]
      rfl (by decide) (by decide)⟩

/-! ## C7: error containment of the interactive loop -/

theorem keys_mem_of_read (fl : List String) (fs : FS) :
    ∀ r ∈ (read_all fl fs).1, ∀ kv ∈ r, kv.1 ∈ fl := by
  intro r hr kv hkv
  have hc := read_all_conforms fl fs r hr
  rw [← hc]
  exact List.mem_map_of_mem Prod.fst hkv

theorem setField_keys_mem (r : Rec) (f v : String) (fl : List String)
    (hr : ∀ kv ∈ r, kv.1 ∈ fl) (hf : f ∈ fl) :
    ∀ kv ∈ setField r f v, kv.1 ∈ fl := by
  intro kv hkv
  unfold setField at hkv
  by_cases h : r.any (fun kv => kv.1 == f) = true
  · rw [if_pos h] at hkv
    obtain ⟨kv0, hkv0, hmap⟩ := List.mem_map.mp hkv
    have hfst : kv.1 = kv0.1 := by
      rw [← hmap]
      by_cases hk : kv0.1 = f <;> simp [hk]
    rw [hfst]
    exact hr kv0 hkv0
  · rw [if_neg h] at hkv
    rcases List.mem_append.mp hkv with h2 | h2
    · exact hr kv h2
    · have hkv2 : kv = (f, v) := by simpa using h2
      rw [hkv2]
      exact hf

theorem wf_csvContent (fl : List String) (records : List Rec) :
    ∀ row ∈ csvContent fl records, row.length ≤ fl.length := by
  intro row hrow
  rcases List.mem_cons.mp hrow with h | h
  · rw [h]
  · obtain ⟨r, _, hr⟩ := List.mem_map.mp h
    rw [← hr, rowOf_length]

theorem wfDataset_of_dataset_eq (fl : List String) (fs fs2 : FS)
    (h : fs2.dataset = fs.dataset) (hfs : wfDataset fl fs) : wfDataset fl fs2 := by
  intro row hrow
  apply hfs
  rwa [h] at hrow

theorem wf_append_row (fl : List String) (fs : FS) (r : Rec) (hfs : wfDataset fl fs) :
    wfDataset fl { fs with dataset := some (fs.dataset.getD [] ++ [rowOf fl r]) } := by
  intro row hrow
  rcases List.mem_append.mp hrow with h | h
  · exact hfs row h
  · have hr : row = rowOf fl r := by simpa using h
    rw [hr, rowOf_length]

theorem write_all_ok_wf (fl : List String) (lockFail : Bool) (fail : WriteFail) (fs : FS)
    (records : List Rec) (h : records.any (hasExtraKey fl) = false)
    (hfs : wfDataset fl fs) :
    ∃ fs2 msgs, write_all fl lockFail fail fs records = POut.ok (fs2, msgs) ∧
      wfDataset fl fs2 := by
  cases fail with
  | noFail =>
    refine ⟨{ fs with dataset := some (csvContent fl records), tmp := none },
      if lockFail then [Msg.lockFailed] else [], by simp [write_all, h], ?_⟩
    intro row hrow
    exact wf_csvContent fl records row hrow
  | duringWrite =>
    exact ⟨{ fs with tmp := none },
      (if lockFail then [Msg.lockFailed] else []) ++ [Msg.writeError],
      by simp [write_all, h], hfs⟩
  | renameFail =>
    exact ⟨{ fs with tmp := none },
      (if lockFail then [Msg.lockFailed] else []) ++ [Msg.writeError],
      by simp [write_all, h], hfs⟩
  | copyFail k =>
    refine ⟨{ fs with dataset := some ((csvContent fl records).take k), tmp := none },
      (if lockFail then [Msg.lockFailed] else []) ++ [Msg.writeError],
      by simp [write_all, h], ?_⟩
    intro row hrow
    exact wf_csvContent fl records row (List.take_subset k _ hrow)

theorem appendRec_ok_wf (fl : List String) (lockFail afail : Bool) (fs : FS) (r : Rec)
    (h : hasExtraKey fl r = false) (hfs : wfDataset fl fs) :
    ∃ fs2 msgs, appendRec fl lockFail afail fs r = POut.ok (fs2, msgs) ∧
      wfDataset fl fs2 := by
  cases afail with
  | true => exact ⟨fs, [Msg.appendError], by simp [appendRec], hfs⟩
  | false =>
    exact ⟨{ fs with dataset := some (fs.dataset.getD [] ++ [rowOf fl r]) },
      if lockFail then [Msg.lockFailed] else [],
      by simp [appendRec, h], wf_append_row fl fs r hfs⟩

theorem importLoop_ok_wf (orig : List Rec) (elems : List JsonElem)
    (h : ∀ e ∈ elems, wfElem e) :
    ∀ fs count skipped, wfDataset FIELDNAMES fs →
      ∃ fs2 c2 sk2, importLoop FIELDNAMES orig elems fs count skipped = POut.ok (fs2, c2, sk2) ∧
        wfDataset FIELDNAMES fs2 := by
  induction elems with
  | nil =>
    intro fs c s hfs
    exact ⟨fs, c, s, rfl, hfs⟩
  | cons e rest ih =>
    intro fs c s hfs
    have he := h e (List.mem_cons_self e rest)
    have hrest : ∀ x ∈ rest, wfElem x := fun x hx => h x (List.mem_cons_of_mem e hx)
    cases e with
    | nonObj => exact he.elim
    | obj r =>
      have hkr : hasExtraKey FIELDNAMES r = false := hasExtraKey_eq_false FIELDNAMES r he
      by_cases hkeep : importKeep orig r = true
      · simp only [importLoop, hkeep, if_true, appendRec_ok_eq FIELDNAMES fs r hkr]
        exact ih hrest _ _ _ (wf_append_row FIELDNAMES fs r hfs)
      · have hkeep' : importKeep orig r = false := Bool.eq_false_iff.mpr hkeep
        simp only [importLoop, hkeep', Bool.false_eq_true, if_false]
        exact ih hrest _ _ _ hfs

theorem mainStep_ok_wf (fs : FS) (a : MenuAction) (ha : wfMenuAction a)
    (hfs : wfDataset FIELDNAMES fs) :
    ∃ fs2 msgs, mainStep fs a = POut.ok (fs2, msgs) ∧ wfDataset FIELDNAMES fs2 := by
  cases a with
  | view => exact ⟨fs, [], rfl, hfs⟩
  | add fields lockFail afail =>
    cases fields with
    | none => exact ⟨fs, [Msg.invalidInput], rfl, hfs⟩
    | some fr =>
      have hk : ∀ kv ∈ fr, kv.1 ∈ FIELDNAMES := ha
      have hex : hasExtraKey FIELDNAMES
          ((idKey, next_id ((read_all FIELDNAMES fs).1)) :: fr) = false := by
        apply hasExtraKey_eq_false
        intro kv hkv
        rcases List.mem_cons.mp hkv with h | h
        · rw [h]
          show idKey ∈ FIELDNAMES
          decide
        · exact hk kv h
      obtain ⟨fs2, msgs, hout, hwf⟩ := appendRec_ok_wf FIELDNAMES lockFail afail fs _ hex hfs
      exact ⟨fs2, msgs, hout, hwf⟩
  | update rid f v lockFail wfail =>
    have hf : f ∈ FIELDNAMES := ha
    cases hidx : ((read_all FIELDNAMES fs).1).findIdx? (fun r => idOf r == rid) with
    | none =>
      refine ⟨fs, [Msg.idNotFound], ?_, hfs⟩
      simp only [mainStep, update_record, hidx]
    | some i =>
      have hkeysx : ∀ kv ∈ (((read_all FIELDNAMES fs).1)[i]?).getD [], kv.1 ∈ FIELDNAMES := by
        cases hx : ((read_all FIELDNAMES fs).1)[i]? with
        | none =>
          intro kv hkv
          simp at hkv
        | some x =>
          intro kv hkv
          obtain ⟨hlt, rfl⟩ := List.getElem?_eq_some.mp hx
          exact keys_mem_of_read FIELDNAMES fs _ (List.getElem_mem hlt) kv hkv
      have hany : (((read_all FIELDNAMES fs).1).set i
          (setField ((((read_all FIELDNAMES fs).1)[i]?).getD []) f v)).any
            (hasExtraKey FIELDNAMES) = false := by
        rw [List.any_eq_false]
        intro y hy
        rcases List.mem_or_eq_of_mem_set hy with h | h
        · simp [hasExtraKey_eq_false FIELDNAMES y (keys_mem_of_read FIELDNAMES fs y h)]
        · subst h
          simp [hasExtraKey_eq_false FIELDNAMES _ (setField_keys_mem _ f v _ hkeysx hf)]
      obtain ⟨fs2, msgs, hout, hwf⟩ := write_all_ok_wf FIELDNAMES lockFail wfail fs _ hany hfs
      refine ⟨fs2, msgs, ?_, hwf⟩
      simp only [mainStep, update_record, hidx]
      exact hout
  | delete rid confirmed lockFail wfail =>
    cases confirmed with
    | false => exact ⟨fs, [], by simp [mainStep, delete_record], hfs⟩
    | true =>
      have hany : (((read_all FIELDNAMES fs).1).filter (fun r => !(idOf r == rid))).any
          (hasExtraKey FIELDNAMES) = false := by
        rw [List.any_eq_false]
        intro y hy
        simp [hasExtraKey_eq_false FIELDNAMES y
          (keys_mem_of_read FIELDNAMES fs y (List.mem_of_mem_filter hy))]
      obtain ⟨fs2, msgs, hout, hwf⟩ := write_all_ok_wf FIELDNAMES lockFail wfail fs _ hany hfs
      exact ⟨fs2, msgs, hout, hwf⟩
  | backup ts cfail =>
    refine ⟨(backup_csv fs ts cfail).1, (backup_csv fs ts cfail).2, rfl, ?_⟩
    refine wfDataset_of_dataset_eq FIELDNAMES fs _ ?_ hfs
    cases hds : fs.dataset with
    | none => simp [backup_csv, hds]
    | some rows => cases cfail <;> simp [backup_csv, hds]
  | exportJson efail => exact ⟨fs, if efail then [Msg.exportError] else [], rfl, hfs⟩
  | importJson payload =>
    cases payload with
    | none => exact ⟨fs, [Msg.invalidJson], rfl, hfs⟩
    | some elems =>
      have he : ∀ e ∈ elems, wfElem e := ha
      obtain ⟨fs2, c, sk, hloop, hwf⟩ :=
        importLoop_ok_wf ((read_all FIELDNAMES fs).1) elems he fs 0 [] hfs
      refine ⟨fs2, [], ?_, hwf⟩
      simp only [mainStep, import_from_json, hloop]
  | eraseAll confirmed lockFail wfail =>
    cases confirmed with
    | false => exact ⟨fs, [], by simp [mainStep, erase_all_data], hfs⟩
    | true =>
      obtain ⟨fs2, msgs, hout, hwf⟩ := write_all_ok_wf FIELDNAMES lockFail wfail fs [] (by simp) hfs
      exact ⟨fs2, msgs, hout, hwf⟩

/-- C7 amended: on any dataset file whose rows fit within the schema
width, every injected I/O failure in read, write, append, backup,
export and import (JSON parse included) is caught at the component
boundary and reported as a message, and the interactive loop keeps
running — provided every import-payload element is a flat object whose
keys lie within the schema and every add/update field name lies within
the schema (as the prompts enforce).  Outside those provisos the
process crashes: a non-object import element raises `AttributeError`
at `r.get`; an import record with keys outside the schema raises
`ValueError` inside `append` (see the counterexample); and a dataset
row wider than the schema makes `DictReader` keep the surplus cells
under the `None` rest-key, so that the whole-file rewrite of update,
delete or erase raises an uncaught `ValueError` in `DictWriter` — that
last path lies outside this embedding's exact domain, which is why the
`wfDataset` hypothesis restricts this theorem to it. -/
theorem handled_inputs_never_crash (fs : FS) (actions : List MenuAction)
    (hfs : wfDataset FIELDNAMES fs)
    (h : ∀ a ∈ actions, wfMenuAction a) :
    ∃ fs2, runActions fs actions = POut.ok fs2 := by
  induction actions generalizing fs with
  | nil => exact ⟨fs, rfl⟩
  | cons a rest ih =>
    obtain ⟨fs2, msgs, hstep, hwf⟩ := mainStep_ok_wf fs a (h a (List.mem_cons_self a rest)) hfs
    obtain ⟨fs3, hrest⟩ := ih fs2 hwf (fun x hx => h x (List.mem_cons_of_mem a hx))
    refine ⟨fs3, ?_⟩
    simp only [runActions, hstep]
    exact hrest

/-- C7 counterexample: importing a JSON array whose single element has
a key outside the schema (`{"id": "9", "bogus": "z"}`) makes
`csv.DictWriter` raise `ValueError` inside `append`; neither `append`'s
`except (IOError, csv.Error)` nor anything in `import_from_json` or
`main` catches it, so it propagates out of the interactive loop and the
process crashes. -/
theorem import_schema_mismatch_key_crashes_loop :
    runActions fsAB [MenuAction.importJson (some [JsonElem.obj badKeyRec])] =
      POut.crash valueError fsAB ∧
    (∀ fs2, runActions fsAB [MenuAction.importJson (some [JsonElem.obj badKeyRec])] ≠
      POut.ok fs2) := by
  refine ⟨by decide, ?_⟩
  intro fs2 h
  have h1 : runActions fsAB [MenuAction.importJson (some [JsonElem.obj badKeyRec])] =
      POut.crash valueError fsAB := by decide
  rw [h1] at h
  exact POut.noConfusion h

/-- Witness for the amended C7 over a run exercising every operation
from a well-formed dataset. -/
theorem handled_inputs_never_crash_witness :
    wfDataset FIELDNAMES fsAB ∧
    (∀ a ∈ [MenuAction.view,
            MenuAction.add (some frSample) false false,
            MenuAction.add (some frSample) true true,
            MenuAction.update ("1") ("gt") ("1500") false WriteFail.duringWrite,
            MenuAction.delete ("2") true false WriteFail.renameFail,
            MenuAction.backup ("20250102_080000") (CopyFail.midCopy 1),
            MenuAction.exportJson true,
            MenuAction.importJson none,
            MenuAction.importJson (some importPayloadExample),
            MenuAction.eraseAll true false (WriteFail.copyFail 0)], wfMenuAction a) ∧
    (∃ fs2, runActions fsAB
      [MenuAction.view,
       MenuAction.add (some frSample) false false,
       MenuAction.add (some frSample) true true,
       MenuAction.update ("1") ("gt") ("1500") false WriteFail.duringWrite,
       MenuAction.delete ("2") true false WriteFail.renameFail,
       MenuAction.backup ("20250102_080000") (CopyFail.midCopy 1),
       MenuAction.exportJson true,
       MenuAction.importJson none,
       MenuAction.importJson (some importPayloadExample),
       MenuAction.eraseAll true false (WriteFail.copyFail 0)] = POut.ok fs2) :=
  ⟨by decide, by decide, handled_inputs_never_crash fsAB _ (by decide) (by decide)⟩


/-! ## C9: backup behaviour -/

/-- C9 counterexample: `backup_csv` uses a plain `shutil.copy`; when
the copy fails midway the exception is caught and reported, but a
truncated file (here: header only, instead of the three source rows)
remains at the timestamped destination in the backups directory —
contradicting "no partial file is left at the destination path on
failure". -/
theorem backup_midcopy_leaves_partial_file :
    backup_csv fsAB ("20250101_120000") (CopyFail.midCopy 1) =
      ({ fsAB with backups := [(backupName ("20250101_120000"), [FIELDNAMES])] },
       [Msg.backupFailed]) ∧
    [FIELDNAMES] ≠ [FIELDNAMES, rowA, rowB] :=
  ⟨by decide, by decide⟩

/-- C9 amended: `backup_csv` copies the dataset file byte-for-byte to
the timestamped destination `data_backup_<ts>.csv` in the backups
directory; a missing source file or a failed copy is reported and
non-fatal (the operation returns normally), but a failed copy may leave
a partially written file at the destination. -/
theorem backup_copy_spec (fs : FS) (ts : String) :
    (∀ rows, fs.dataset = some rows →
      backup_csv fs ts CopyFail.noFail =
        ({ fs with backups := fs.backups ++ [(backupName ts, rows)] }, [])) ∧
    (fs.dataset = none → ∀ fail, backup_csv fs ts fail = (fs, [Msg.backupFailed])) ∧
    (∀ rows k, fs.dataset = some rows →
      backup_csv fs ts (CopyFail.midCopy k) =
        ({ fs with backups := fs.backups ++ [(backupName ts, rows.take k)] },
         [Msg.backupFailed])) := by
  refine ⟨?_, ?_, ?_⟩
  · intro rows hds
    simp [backup_csv, hds]
  · intro hds fail
    simp [backup_csv, hds]
  · intro rows k hds
    simp [backup_csv, hds]

/-- Witness for the amended C9 at a concrete successful backup. -/
theorem backup_copy_spec_witness :
    (fsAB.dataset = some [FIELDNAMES, rowA, rowB]) ∧
    backup_csv fsAB ("20250103_090000") CopyFail.noFail =
      ({ fsAB with backups := fsAB.backups ++
          [(backupName ("20250103_090000"), [FIELDNAMES, rowA, rowB])] }, []) :=
  ⟨rfl, (backup_copy_spec fsAB ("20250103_090000")).1 [FIELDNAMES, rowA, rowB] rfl⟩
